import Mathlib

/-!
Verification of the `pyzimmer` ZIM archive writer (`pyzimmer/zim_writer.py`).

The development shallowly embeds the writer: byte strings (Python `bytes`)
become `List Nat` (one `Nat` per byte), `struct.pack` formats become explicit
little-endian encoders, classes become structures/inductives, and the one
run-time failure mode that matters (`AttributeError` raised by an attribute
lookup, and the `assert` in `write_zim`) becomes an `Except` error value.
-/

namespace PyZim

/-- Little-endian 2-byte encoding, Python `struct.pack("<H", n)`. -/
def u16le (n : Nat) : List Nat :=
  [n % 256, n / 256 % 256]

/-- Little-endian 4-byte encoding, Python `struct.pack("<I", n)`. -/
def u32le (n : Nat) : List Nat :=
  [n % 256, n / 256 % 256, n / 65536 % 256, n / 16777216 % 256]

/-- Little-endian 8-byte encoding, Python `struct.pack("<Q", n)`. -/
def u64le (n : Nat) : List Nat :=
  [n % 256, n / 256 % 256, n / 65536 % 256, n / 16777216 % 256,
   n / 4294967296 % 256, n / 1099511627776 % 256,
   n / 281474976710656 % 256, n / 72057594037927936 % 256]

/-- Packing a homogeneous sequence of integers, Python `struct.pack("<kI", *xs)`
and `struct.pack("<kQ", *xs)`: the fixed-width encodings concatenated. -/
def packList (enc : Nat → List Nat) (xs : List Nat) : List Nat :=
  (xs.map enc).flatten

/-- The cumulative-offset list kept by both `DataGroup.relative_offsets` and
`ZimCluster.relative_offset_table`: it starts at `[0]` and each append of a
record adds the new total byte size (`tell()` after the write).  For records
`[r₀, …, r_{k-1}]` it is `[0, |r₀|, |r₀|+|r₁|, …, total]` (length `k + 1`). -/
def cumOffsets : List (List Nat) → List Nat
  | [] => [0]
  | b :: bs => 0 :: (cumOffsets bs).map (b.length + ·)

/-- The Python exceptions that the embedded code can raise. -/
inductive PyErr where
  /-- `AttributeError`, raised by a failed attribute lookup. -/
  | attrError : PyErr
  /-- `AssertionError`, raised by the `assert` statement in `write_zim`. -/
  | assertError : PyErr
deriving DecidableEq

/-- An input item handed to `write_zim`: either a `ZimArticle` (which carries a
payload `blob` and sets `has_blob = True` in `__init__`) or a bare
`ZimLinkTarget` (no payload; its `__init__` sets `hasblob = False` — note the
missing underscore).  `ns` is the single namespace byte
(`bytes(namespace, "ASCII")`), `url` and `title` are the UTF-8 encoded byte
strings stored by `ZimLinkTarget.__init__`. -/
inductive ZimItem where
  | article (ns : Nat) (url : List Nat) (title : List Nat)
      (mimetype : Nat) (revision : Nat) (blob : List Nat) : ZimItem
  | linkTarget (ns : Nat) (url : List Nat) (title : List Nat)
      (mimetype : Nat) (revision : Nat) : ZimItem
deriving DecidableEq

/-- `article.namespace`. -/
def ZimItem.ns : ZimItem → Nat
  | .article n _ _ _ _ _ => n
  | .linkTarget n _ _ _ _ => n

/-- `article.url`. -/
def ZimItem.url : ZimItem → List Nat
  | .article _ u _ _ _ _ => u
  | .linkTarget _ u _ _ _ => u

/-- `article.title`. -/
def ZimItem.title : ZimItem → List Nat
  | .article _ _ t _ _ _ => t
  | .linkTarget _ _ t _ _ => t

/-- Whether the item is a `ZimArticle` instance (and therefore actually has the
`has_blob` attribute that `split_articles_to_clusters` reads). -/
def ZimItem.isArticle : ZimItem → Bool
  | .article _ _ _ _ _ _ => true
  | .linkTarget _ _ _ _ _ => false

/-- `ZimCluster`: the in-progress cluster keeps `blobs_io` (a byte buffer the
blobs are concatenated into) and `relative_offset_table`; both are determined
by the list of appended blobs, which is what we store.  `compress` is the
constructor flag (the writer only ever builds clusters with
`compress=False`). -/
structure ZimCluster where
  blobs : List (List Nat)
  compress : Bool
deriving DecidableEq

/-- `ZimCluster()`: fresh empty cluster, `compress=False`. -/
def ZimCluster.new : ZimCluster := ⟨[], false⟩

/-- `ZimCluster.__len__`: `len(relative_offset_table) - 1`, i.e. the number of
appended blobs. -/
def ZimCluster.len (c : ZimCluster) : Nat := c.blobs.length

/-- `ZimCluster.raw_size`: `blobs_io.tell()`, the total uncompressed byte size
of the appended blobs. -/
def ZimCluster.raw_size (c : ZimCluster) : Nat :=
  (c.blobs.map List.length).sum

/-- `ZimCluster.append`: write the blob into `blobs_io` and record the new
cumulative offset. -/
def ZimCluster.append (c : ZimCluster) (blob : List Nat) : ZimCluster :=
  ⟨c.blobs ++ [blob], c.compress⟩

/-- `ZimCluster.relative_offset_table`: `[0]` followed by the cumulative byte
offsets after each append (`blobs_io.tell()`). -/
def ZimCluster.relative_offset_table (c : ZimCluster) : List Nat :=
  cumOffsets c.blobs

/-- `ZimCluster.raw_cluster`: the internal offset table, each entry shifted by
the table's own byte size `4 * table_length`, packed as `<I` values, followed
by the blob bytes. -/
def ZimCluster.raw_cluster (c : ZimCluster) : List Nat :=
  let table_length := c.relative_offset_table.length
  let first_blob_offset := 4 * table_length
  packList u32le (c.relative_offset_table.map (first_blob_offset + ·)) ++
    c.blobs.flatten

/-- `ZimCluster.__bytes__`: `bytes((4,)) + lzma.compress(raw_cluster())` when
compressed, `bytes((1,)) + raw_cluster()` otherwise.  `lzmaf` stands for the
external `lzma.compress`. -/
def ZimCluster.bytes (lzmaf : List Nat → List Nat) (c : ZimCluster) : List Nat :=
  if c.compress then 4 :: lzmaf c.raw_cluster else 1 :: c.raw_cluster

/-- A serialized directory entry.  `DirEntry.article` records the fields packed
by `ZimArticle.__bytes__` (format `<HbcIII{n}s{m}s`), including the
`cluster_number` and `blob_number` set by `to_ArticleEntry`;
`DirEntry.linkTarget` records the fields packed by `ZimLinkTarget.__bytes__`
(format `<HbcI{n}s{m}s`). -/
inductive DirEntry where
  | article (mimetype : Nat) (parameter_len : Nat) (ns : Nat) (revision : Nat)
      (cluster_number : Nat) (blob_number : Nat)
      (url : List Nat) (title : List Nat) : DirEntry
  | linkTarget (mimetype : Nat) (parameter_len : Nat) (ns : Nat) (revision : Nat)
      (url : List Nat) (title : List Nat) : DirEntry
deriving DecidableEq

/-- `ZimArticle.__bytes__` / `ZimLinkTarget.__bytes__`: the struct formats
`<HbcIII{len(url)+1}s{len(title)+1}s` and `<HbcI{len(url)+1}s{len(title)+1}s`.
A `{k+1}s` field containing a `k`-byte string is the string padded with one
zero byte, i.e. a null-terminated string. -/
def entryBytes : DirEntry → List Nat
  | .article mimetype parameter_len ns revision cluster_number blob_number url title =>
      u16le mimetype ++ [parameter_len] ++ [ns] ++ u32le revision ++
        u32le cluster_number ++ u32le blob_number ++
        url ++ [0] ++ title ++ [0]
  | .linkTarget mimetype parameter_len ns revision url title =>
      u16le mimetype ++ [parameter_len] ++ [ns] ++ u32le revision ++
        url ++ [0] ++ title ++ [0]

/-- `DataGroup`: collects byte records in a temporary file and keeps
`relative_offsets`.  The temporary file's contents are the concatenation of
the appended records, so we store the record list; `finalized` is true once
`data()` has closed the write handle. -/
structure DataGroup where
  records : List (List Nat)
  finalized : Bool
deriving DecidableEq

/-- `DataGroup(temp_filename)`: empty group, write handle open. -/
def DataGroup.new : DataGroup := ⟨[], false⟩

/-- `DataGroup.append`: writes `bytes(data)` to the temp file and records the
new cumulative offset.  After `data()` has run, the write handle is closed and
a further `append` raises (`ValueError: I/O operation on closed file`), which
we model as `none`. -/
def DataGroup.append (g : DataGroup) (data : List Nat) : Option DataGroup :=
  if g.finalized then none else some ⟨g.records ++ [data], false⟩

/-- `DataGroup.append` iterated over a list of records, stopping at the first
failure. -/
def DataGroup.appendList (g : DataGroup) : List (List Nat) → Option DataGroup
  | [] => some g
  | d :: ds =>
    match g.append d with
    | some g1 => g1.appendList ds
    | none => none

/-- `DataGroup.__len__`: `len(relative_offsets) - 1`. -/
def DataGroup.size (g : DataGroup) : Nat := g.records.length

/-- `DataGroup.relative_offsets`: `[0]` plus the cumulative offsets. -/
def DataGroup.relative_offsets (g : DataGroup) : List Nat :=
  cumOffsets g.records

/-- The offsets emitted by `DataGroup.table`: `initial_offset + x` for every
`x` in `relative_offsets[:-1]` (the final cumulative offset is dropped). -/
def DataGroup.tableOffsets (g : DataGroup) (initial_offset : Nat) : List Nat :=
  g.relative_offsets.dropLast.map (initial_offset + ·)

/-- `DataGroup.table`: the offsets packed as `len(self)` `<Q` values. -/
def DataGroup.table (g : DataGroup) (initial_offset : Nat) : List Nat :=
  packList u64le (g.tableOffsets initial_offset)

/-- `DataGroup.data`: closes the write handle and returns the temp file's
contents (all records concatenated).  The second component is the group after
the call (write handle closed). -/
def DataGroup.data (g : DataGroup) : List Nat × DataGroup :=
  (g.records.flatten, ⟨g.records, true⟩)

/-- The condition `title != ""` on line 133 of `zim_writer.py`.  `title` is
`article.title`, a `bytes` object (`ZimLinkTarget.__init__` stores
`title.encode("UTF8")`), while `""` is a `str`; in Python a `bytes` value
never compares equal to a `str`, so this condition is `True` for every title,
including the empty one, and the `else` branch that would substitute the url
is dead code. -/
def titleNeEmptyStr (_ : List Nat) : Bool := true

/-- The loop state of `split_articles_to_clusters`.  `cluster_grp` and
`dir_entries` are the two `DataGroup`s viewed as the lists of values appended
so far (serialization to bytes is deterministic and is applied when the groups
are read back in `write_zim`); neither group is finalized during the loop, so
every `DataGroup.append` succeeds. -/
structure SplitState where
  cluster_grp : List ZimCluster
  dir_entries : List DirEntry
  titles : List (List Nat)
  urls : List (List Nat)
  current_cluster : ZimCluster
  current_ns : Nat
deriving DecidableEq

/-- The state before the loop: empty groups, `current_cluster = ZimCluster()`,
`current_ns = "-"` (byte 45). -/
def splitInit : SplitState :=
  ⟨[], [], [], [], ZimCluster.new, 45⟩

/-- One iteration of the `for article in articles` loop of
`split_articles_to_clusters`:
1. if `current_cluster.raw_size() > max_cluster_size` or
   (`article.namespace != current_ns` and `len(current_cluster) > 0`), the
   current cluster is appended to `cluster_grp` and a fresh one is started;
2. `current_ns = article.namespace`;
3. `if article.has_blob:` — for a `ZimArticle` this is `True` and the blob is
   appended to the current cluster while
   `to_ArticleEntry(len(cluster_grp), len(current_cluster) - 1)` is appended
   to `dir_entries`; for a bare `ZimLinkTarget` the attribute lookup itself
   raises `AttributeError` (the class sets `hasblob`, without underscore, so
   there is no `has_blob` attribute), and the `else` branch
   `dir_entries.append(bytes(article))` is unreachable;
4. the title (or, in dead code, the url — see `titleNeEmptyStr`) and the url
   are appended to `titles` and `urls`. -/
def splitStep (max_cluster_size : Nat) (s : SplitState) (article : ZimItem) :
    Except PyErr SplitState :=
  let s1 :=
    if s.current_cluster.raw_size > max_cluster_size ∨
        (article.ns ≠ s.current_ns ∧ 0 < s.current_cluster.len) then
      { s with cluster_grp := s.cluster_grp ++ [s.current_cluster],
               current_cluster := ZimCluster.new }
    else s
  let s2 := { s1 with current_ns := article.ns }
  match article with
  | .article ns url title mimetype revision blob =>
      let cur := s2.current_cluster.append blob
      let entry := DirEntry.article mimetype 0 ns revision
        s2.cluster_grp.length (cur.len - 1) url title
      .ok { s2 with
            current_cluster := cur,
            dir_entries := s2.dir_entries ++ [entry],
            titles := s2.titles ++ [if titleNeEmptyStr title then title else url],
            urls := s2.urls ++ [url] }
  | .linkTarget _ _ _ _ _ => .error .attrError

/-- The quadruple returned by `split_articles_to_clusters`. -/
structure SplitResult where
  cluster_grp : List ZimCluster
  dir_entries : List DirEntry
  titles : List (List Nat)
  urls : List (List Nat)
deriving DecidableEq

/-- The `for article in articles` loop: iterate `splitStep`, stopping with the
exception if an iteration raises. -/
def splitFold (max_cluster_size : Nat) : SplitState → List ZimItem → Except PyErr SplitState
  | s, [] => .ok s
  | s, a :: as =>
    match splitStep max_cluster_size s a with
    | .ok s1 => splitFold max_cluster_size s1 as
    | .error e => .error e

/-- `split_articles_to_clusters`: run the loop, then append the final
`current_cluster` to `cluster_grp` unconditionally (even when it is empty). -/
def split_articles_to_clusters (articles : List ZimItem) (max_cluster_size : Nat) :
    Except PyErr SplitResult :=
  match splitFold max_cluster_size splitInit articles with
  | .ok s => .ok ⟨s.cluster_grp ++ [s.current_cluster], s.dir_entries, s.titles, s.urls⟩
  | .error e => .error e

/-- Strict lexicographic comparison of two byte strings, Python's `<` on
`bytes` values (by unsigned byte value; a proper initial segment is smaller). -/
def bytesLt : List Nat → List Nat → Bool
  | _, [] => false
  | [], _ :: _ => true
  | a :: as, b :: bs => if a < b then true else if a = b then bytesLt as bs else false

/-- Python's `<` on the tuples `(title, index)` sorted by `ZimTitlePtrTable`:
compare the titles lexicographically, break ties by index. -/
def keyLt (p q : List Nat × Nat) : Prop :=
  bytesLt p.1 q.1 = true ∨ (p.1 = q.1 ∧ p.2 < q.2)

instance : DecidableRel keyLt := fun p q => by
  unfold keyLt; infer_instance

/-- The reflexive closure of `keyLt`: the total order `sorted` sorts by. -/
def keyLe (p q : List Nat × Nat) : Prop :=
  keyLt p q ∨ p = q

instance : DecidableRel keyLe := fun p q => by
  unfold keyLe; infer_instance

/-- `ZimTitlePtrTable.__init__` + `title_idxs`:
`sorted(zip(titles, range(N)))` sorts the pairs `(title, original index)` by
the tuple order (which is a linear order, the pairs being pairwise distinct in
their second component, so any comparison sort produces this unique sorted
arrangement; `insertionSort` stands in for Python's sort), and the table is
the list of second components. -/
def ZimTitlePtrTable (titles : List (List Nat)) (N : Nat) : List Nat :=
  (List.insertionSort keyLe (titles.zip (List.range N))).map Prod.snd

/-- `ZimTitlePtrTable.__bytes__`: the indices packed as `<NI`. -/
def titlePtrTableBytes (titles : List (List Nat)) (N : Nat) : List Nat :=
  packList u32le (ZimTitlePtrTable titles N)

/-- `ZimMimelist.__bytes__`: each mimetype's UTF-8 bytes followed by one zero
byte (`bytes(1)`), concatenated in the caller-given order. -/
def mimelistBytes (mimetypes : List (List Nat)) : List Nat :=
  (mimetypes.map (· ++ [0])).flatten

/-- Python `list.index` wrapped in `try`/`except`: the index of the first
element equal to `u`, or `none` when there is no such element (the code
catches the `ValueError` and warns). -/
def index? (l : List (List Nat)) (u : List Nat) : Option Nat :=
  match l with
  | [] => none
  | x :: xs => if x = u then some 0 else (index? xs u).map (· + 1)

/-- `ZimHeader`, with every field finally written by `__bytes__`.
`magicNumber = 72173914` and `version = 5` are set in `__init__`, and
`mainPage`/`layoutPage` start at the sentinel `0xffffffff`. -/
structure ZimHeader where
  magicNumber : Nat
  version : Nat
  uuid : List Nat
  articleCount : Nat
  clusterCount : Nat
  urlPtrPos : Nat
  titlePtrPos : Nat
  clusterPtrPos : Nat
  mimeListPos : Nat
  mainPage : Nat
  layoutPage : Nat
  checksumPos : Nat
deriving DecidableEq

/-- A `16s` struct field: the byte string truncated or zero-padded to exactly
16 bytes. -/
def bytes16 (u : List Nat) : List Nat :=
  u.take 16 ++ List.replicate (16 - u.length) 0

/-- `ZimHeader.__bytes__`: `struct.pack("<II16sIIQQQQIIQ", ...)` with the
fields in the order of the pack call (80 bytes in total). -/
def headerBytes (h : ZimHeader) : List Nat :=
  u32le h.magicNumber ++ u32le h.version ++ bytes16 h.uuid ++
    u32le h.articleCount ++ u32le h.clusterCount ++
    u64le h.urlPtrPos ++ u64le h.titlePtrPos ++ u64le h.clusterPtrPos ++
    u64le h.mimeListPos ++ u32le h.mainPage ++ u32le h.layoutPage ++
    u64le h.checksumPos

/-- `ZimHeader.raw_size`: `struct.Struct("<II16sIIQQQQIIQ").size`. -/
def ZimHeader.raw_size : Nat := 80

/-- What the first `with open(...)` block of `write_zim` leaves behind: the
file's bytes (with the header back-patched at offset 0), the final header
record, and whether the missing-main-page warning was emitted. -/
structure WriteOutput where
  content : List Nat
  header : ZimHeader
  warned : Bool
deriving DecidableEq

/-- The assembly `write_zim` performs after `split_articles_to_clusters`
returns, mirroring the write order of the source.  All positions are the
values of `outzim.tell()` at the corresponding program points, i.e. cumulative
byte counts; the two `DataGroup`s reappear here holding the records appended
during the split (directory entries and clusters are serialized by
`DataGroup.append`, deterministically, so reading them back gives the mapped
byte lists).  The `assert(dir_entries_offset == outzim.tell())` becomes the
`.error .assertError` branch. -/
def assembleOutput (r : SplitResult) (mimetypes : List (List Nat))
    (uuid : List Nat) (main_page_url : Option (List Nat))
    (lzmaf : List Nat → List Nat) : Except PyErr WriteOutput :=
  let mimeListPos := ZimHeader.raw_size
  let mimelist := mimelistBytes mimetypes
  let urlPtrPos := mimeListPos + mimelist.length
  let clusterCount := r.cluster_grp.length
  let articleCount := r.dir_entries.length
  let mainPageWarned :=
    match main_page_url with
    | none => (0xffffffff, false)
    | some u =>
      match index? r.urls u with
      | some i => (i, false)
      | none => (0xffffffff, true)
  let dir_entries_offset := urlPtrPos + 12 * articleCount
  let dirGroup : DataGroup := ⟨r.dir_entries.map entryBytes, false⟩
  let urlPtrTable := dirGroup.table dir_entries_offset
  let titlePtrPos := urlPtrPos + urlPtrTable.length
  let titleTable := titlePtrTableBytes r.titles articleCount
  let cursor := titlePtrPos + titleTable.length
  if dir_entries_offset ≠ cursor then .error .assertError else
  let entriesData := (dirGroup.data).1
  let clusterPtrPos := cursor + entriesData.length
  let clusterGroup : DataGroup := ⟨r.cluster_grp.map (ZimCluster.bytes lzmaf), false⟩
  let cluster_offset := clusterPtrPos + 8 * clusterCount
  let clusterTable := clusterGroup.table cluster_offset
  let clustersData := (clusterGroup.data).1
  let checksumPos := clusterPtrPos + clusterTable.length + clustersData.length
  let header : ZimHeader :=
    { magicNumber := 72173914, version := 5, uuid := uuid,
      articleCount := articleCount, clusterCount := clusterCount,
      urlPtrPos := urlPtrPos, titlePtrPos := titlePtrPos,
      clusterPtrPos := clusterPtrPos, mimeListPos := mimeListPos,
      mainPage := mainPageWarned.1, layoutPage := 0xffffffff,
      checksumPos := checksumPos }
  .ok { content := headerBytes header ++ mimelist ++ urlPtrTable ++ titleTable ++
          entriesData ++ clusterTable ++ clustersData,
        header := header, warned := mainPageWarned.2 }

/-- The first `with open(...)` block of `write_zim`: reserve the header
region, write the mimetype list, split the articles into clusters and
directory entries, resolve the main page, write every section, and back-patch
the header at offset 0.  `uuid` stands for the random `uuid4().bytes_le` and
`lzmaf` for `lzma.compress`. -/
def writeZimContent (articles : List ZimItem) (mimetypes : List (List Nat))
    (uuid : List Nat) (main_page_url : Option (List Nat))
    (lzmaf : List Nat → List Nat) : Except PyErr WriteOutput :=
  match split_articles_to_clusters articles 1000000 with
  | .ok r => assembleOutput r mimetypes uuid main_page_url lzmaf
  | .error e => .error e

/-- `write_zim` in full: after the content file is written and closed, its
bytes are hashed (`md5f` stands for the external MD5) and the digest is
appended to the file. -/
def write_zim (articles : List ZimItem) (mimetypes : List (List Nat))
    (uuid : List Nat) (main_page_url : Option (List Nat))
    (lzmaf : List Nat → List Nat) (md5f : List Nat → List Nat) :
    Except PyErr (List Nat) :=
  match writeZimContent articles mimetypes uuid main_page_url lzmaf with
  | .ok out => .ok (out.content ++ md5f out.content)
  | .error e => .error e

/-! ### A second clustering model, written from the specification's words

The specification states the cluster-splitting rule (b) in terms of "the
current cluster's namespace".  The writer's state has no such field — it keeps
`current_ns`, the namespace of the *previous item* — so to compare the code
against the specification we build a model whose current cluster remembers,
for each blob, the namespace of the item that contributed it, and whose
splitting condition is literally the specification's. -/

/-- Specification-side state: the closed clusters and the current cluster,
each a list of (namespace, blob) pairs in append order. -/
structure SpecState where
  closed : List (List (Nat × List Nat))
  current : List (Nat × List Nat)
deriving DecidableEq

/-- The namespace of a cluster: the namespace of its blobs (they all agree;
`none` for an empty cluster, whose namespace the specification leaves
undefined). -/
def specClusterNs (c : List (Nat × List Nat)) : Option Nat :=
  c.head?.map Prod.fst

/-- The accumulated uncompressed byte size of a specification-side cluster. -/
def specSize (c : List (Nat × List Nat)) : Nat :=
  (c.map (fun p => p.2.length)).sum

/-- Modelled from the spec: "close the current cluster and open a new one when
either (a) the current cluster's accumulated uncompressed byte size exceeds a
configurable threshold, or (b) the item's namespace differs from the current
cluster's namespace and the current cluster already holds at least one blob";
a payload-carrying item's blob is then appended to the current cluster, an
item without payload leaves the clusters unchanged. -/
def specStep (max_cluster_size : Nat) (s : SpecState) (article : ZimItem) : SpecState :=
  let s1 :=
    if specSize s.current > max_cluster_size ∨
        (s.current ≠ [] ∧ specClusterNs s.current ≠ some article.ns) then
      ⟨s.closed ++ [s.current], []⟩
    else s
  match article with
  | .article ns _ _ _ _ blob => { s1 with current := s1.current ++ [(ns, blob)] }
  | .linkTarget _ _ _ _ _ => s1

/-- Modelled from the spec: the clusters produced by the splitting policy,
including the final cluster, which "is always closed and emitted at end of
input, even if it is the only one, even if empty". -/
def specSplit (articles : List ZimItem) (max_cluster_size : Nat) :
    List (List (Nat × List Nat)) :=
  let s := articles.foldl (specStep max_cluster_size) ⟨[], []⟩
  s.closed ++ [s.current]

/-! ### Named values of the assembly pass

The values `write_zim` computes after the split, named so that theorems can
speak about them; `assembleOutput` produces exactly these (see
`assembleOutput_eq`). -/

/-- `zim_header.urlPtrPos`: the cursor after the reserved header and the
mimetype list. -/
def urlPtrPosOf (mimetypes : List (List Nat)) : Nat :=
  ZimHeader.raw_size + (mimelistBytes mimetypes).length

/-- The URL pointer table: `dir_entries.table(dir_entries_offset)`. -/
def urlTableOf (r : SplitResult) (mimetypes : List (List Nat)) : List Nat :=
  (DataGroup.mk (r.dir_entries.map entryBytes) false).table
    (urlPtrPosOf mimetypes + 12 * r.dir_entries.length)

/-- `zim_header.titlePtrPos`: the cursor after the URL pointer table. -/
def titlePtrPosOf (r : SplitResult) (mimetypes : List (List Nat)) : Nat :=
  urlPtrPosOf mimetypes + (urlTableOf r mimetypes).length

/-- The title pointer table bytes. -/
def titleTableOf (r : SplitResult) : List Nat :=
  titlePtrTableBytes r.titles r.dir_entries.length

/-- The cursor at the `assert`: after the two pointer tables. -/
def cursorOf (r : SplitResult) (mimetypes : List (List Nat)) : Nat :=
  titlePtrPosOf r mimetypes + (titleTableOf r).length

/-- `dir_entries.data()`: the concatenated directory entries. -/
def entriesDataOf (r : SplitResult) : List Nat :=
  ((DataGroup.mk (r.dir_entries.map entryBytes) false).data).1

/-- `zim_header.clusterPtrPos`: the cursor after the directory entries. -/
def clusterPtrPosOf (r : SplitResult) (mimetypes : List (List Nat)) : Nat :=
  cursorOf r mimetypes + (entriesDataOf r).length

/-- The cluster pointer table: `cluster_grp.table(cluster_offset)`. -/
def clusterTableOf (r : SplitResult) (mimetypes : List (List Nat))
    (lzmaf : List Nat → List Nat) : List Nat :=
  (DataGroup.mk (r.cluster_grp.map (ZimCluster.bytes lzmaf)) false).table
    (clusterPtrPosOf r mimetypes + 8 * r.cluster_grp.length)

/-- `cluster_grp.data()`: the concatenated serialized clusters. -/
def clustersDataOf (r : SplitResult) (lzmaf : List Nat → List Nat) : List Nat :=
  ((DataGroup.mk (r.cluster_grp.map (ZimCluster.bytes lzmaf)) false).data).1

/-- `zim_header.checksumPos`: the cursor at the end of the first write pass. -/
def checksumPosOf (r : SplitResult) (mimetypes : List (List Nat))
    (lzmaf : List Nat → List Nat) : Nat :=
  clusterPtrPosOf r mimetypes + (clusterTableOf r mimetypes lzmaf).length +
    (clustersDataOf r lzmaf).length

/-- The main-page resolution: `urls.index` under `try`/`except ValueError`,
returning the header value and whether the warning was emitted. -/
def mainPageOf (r : SplitResult) (main_page_url : Option (List Nat)) : Nat × Bool :=
  match main_page_url with
  | none => (0xffffffff, false)
  | some u =>
    match index? r.urls u with
    | some i => (i, false)
    | none => (0xffffffff, true)

/-- The fully populated header back-patched at offset 0. -/
def zimHeaderOf (r : SplitResult) (mimetypes : List (List Nat)) (uuid : List Nat)
    (main_page_url : Option (List Nat)) (lzmaf : List Nat → List Nat) : ZimHeader :=
  { magicNumber := 72173914, version := 5, uuid := uuid,
    articleCount := r.dir_entries.length, clusterCount := r.cluster_grp.length,
    urlPtrPos := urlPtrPosOf mimetypes, titlePtrPos := titlePtrPosOf r mimetypes,
    clusterPtrPos := clusterPtrPosOf r mimetypes, mimeListPos := ZimHeader.raw_size,
    mainPage := (mainPageOf r main_page_url).1, layoutPage := 0xffffffff,
    checksumPos := checksumPosOf r mimetypes lzmaf }

/-- The bytes of the finished first pass (header back-patched). -/
def zimContentOf (r : SplitResult) (mimetypes : List (List Nat)) (uuid : List Nat)
    (main_page_url : Option (List Nat)) (lzmaf : List Nat → List Nat) : List Nat :=
  headerBytes (zimHeaderOf r mimetypes uuid main_page_url lzmaf) ++
    mimelistBytes mimetypes ++ urlTableOf r mimetypes ++ titleTableOf r ++
    entriesDataOf r ++ clusterTableOf r mimetypes lzmaf ++ clustersDataOf r lzmaf

/-! ### Byte-length bookkeeping -/

theorem u16le_length (n : Nat) : (u16le n).length = 2 := rfl

theorem u32le_length (n : Nat) : (u32le n).length = 4 := rfl

theorem u64le_length (n : Nat) : (u64le n).length = 8 := rfl

theorem packList_length (enc : Nat → List Nat) (k : Nat) (h : ∀ n, (enc n).length = k)
    (xs : List Nat) : (packList enc xs).length = k * xs.length := by
  induction xs with
  | nil => simp [packList]
  | cons x xs ih =>
      simp only [packList, List.map_cons, List.flatten_cons, List.length_append, h] at *
      rw [ih, List.length_cons, Nat.mul_add, Nat.mul_one]
      omega

theorem cumOffsets_length (bs : List (List Nat)) :
    (cumOffsets bs).length = bs.length + 1 := by
  induction bs with
  | nil => rfl
  | cons b bs ih => simp [cumOffsets, ih]

theorem cumOffsets_eq (bs : List (List Nat)) :
    cumOffsets bs =
      (List.range (bs.length + 1)).map (fun i => ((bs.take i).map List.length).sum) := by
  induction bs with
  | nil => rfl
  | cons b bs ih =>
      rw [cumOffsets, ih]
      conv_rhs => rw [List.length_cons, List.range_succ_eq_map]
      simp only [List.map_cons, List.map_map]
      congr 1

theorem DataGroup.tableOffsets_length (g : DataGroup) (base : Nat) :
    (g.tableOffsets base).length = g.records.length := by
  simp [DataGroup.tableOffsets, DataGroup.relative_offsets, cumOffsets_length]

theorem DataGroup.table_length (g : DataGroup) (base : Nat) :
    (g.table base).length = 8 * g.records.length := by
  rw [DataGroup.table, packList_length u64le 8 u64le_length, DataGroup.tableOffsets_length]

theorem DataGroup.tableOffsets_eq (g : DataGroup) (base : Nat) :
    g.tableOffsets base =
      (List.range g.records.length).map
        (fun i => base + ((g.records.take i).map List.length).sum) := by
  rw [DataGroup.tableOffsets, DataGroup.relative_offsets, cumOffsets_eq,
    List.range_succ, List.map_append]
  simp only [List.map_cons, List.map_nil]
  rw [List.dropLast_concat, List.map_map]
  rfl

theorem ZimTitlePtrTable_length (titles : List (List Nat)) (N : Nat) :
    (ZimTitlePtrTable titles N).length = min titles.length N := by
  rw [ZimTitlePtrTable, List.length_map, (List.perm_insertionSort keyLe _).length_eq,
    List.length_zip, List.length_range]

theorem titlePtrTableBytes_length (titles : List (List Nat)) (N : Nat) :
    (titlePtrTableBytes titles N).length = 4 * min titles.length N := by
  rw [titlePtrTableBytes, packList_length u32le 4 u32le_length, ZimTitlePtrTable_length]

theorem headerBytes_length (h : ZimHeader) :
    (headerBytes h).length = ZimHeader.raw_size := by
  simp [headerBytes, bytes16, u32le, u64le, ZimHeader.raw_size, List.length_append,
    List.length_take, List.length_replicate]
  omega

/-! ### Bookkeeping facts about the split loop -/

theorem splitStep_lists {m : Nat} {s : SplitState} {a : ZimItem} {s' : SplitState}
    (h : splitStep m s a = .ok s') :
    s'.titles = s.titles ++ [if titleNeEmptyStr a.title then a.title else a.url] ∧
    s'.urls = s.urls ++ [a.url] ∧
    s'.dir_entries.length = s.dir_entries.length + 1 := by
  cases a with
  | linkTarget ns url title mt rev => simp [splitStep] at h
  | article ns url title mt rev blob =>
      simp only [splitStep] at h
      split at h <;>
        (simp only [Except.ok.injEq] at h; subst h;
         simp [ZimItem.title, ZimItem.url, titleNeEmptyStr])

theorem splitStep_no_assert {m : Nat} {s : SplitState} {a : ZimItem} {e : PyErr}
    (h : splitStep m s a = .error e) : e = .attrError := by
  cases a with
  | linkTarget ns url title mt rev =>
      simp only [splitStep, Except.error.injEq] at h
      exact h.symm
  | article ns url title mt rev blob =>
      simp only [splitStep] at h
      split at h <;> simp at h

theorem splitFold_lists {m : Nat} :
    ∀ {articles : List ZimItem} {s s' : SplitState},
      splitFold m s articles = .ok s' →
      s'.titles = s.titles ++
        articles.map (fun a => if titleNeEmptyStr a.title then a.title else a.url) ∧
      s'.urls = s.urls ++ articles.map ZimItem.url ∧
      s'.dir_entries.length = s.dir_entries.length + articles.length := by
  intro articles
  induction articles with
  | nil =>
      intro s s' h
      simp only [splitFold, Except.ok.injEq] at h
      subst h
      simp
  | cons a as ih =>
      intro s s' h
      simp only [splitFold] at h
      split at h
      · next s1 hstep =>
          obtain ⟨ht, hu, hd⟩ := ih h
          obtain ⟨ht0, hu0, hd0⟩ := splitStep_lists hstep
          refine ⟨?_, ?_, ?_⟩
          · rw [ht, ht0]; simp
          · rw [hu, hu0]; simp
          · rw [hd, hd0]; simp [List.length_cons]; omega
      · simp at h

theorem splitFold_no_assert {m : Nat} :
    ∀ {articles : List ZimItem} {s : SplitState},
      splitFold m s articles ≠ .error .assertError := by
  intro articles
  induction articles with
  | nil => intro s h; simp [splitFold] at h
  | cons a as ih =>
      intro s h
      simp only [splitFold] at h
      split at h
      · exact ih h
      · next e hstep =>
          rw [splitStep_no_assert hstep] at h
          simp at h

theorem split_lists {articles : List ZimItem} {m : Nat} {r : SplitResult}
    (h : split_articles_to_clusters articles m = .ok r) :
    r.titles = articles.map ZimItem.title ∧
    r.urls = articles.map ZimItem.url ∧
    r.dir_entries.length = articles.length := by
  unfold split_articles_to_clusters at h
  split at h
  · next s hf =>
      obtain ⟨ht, hu, hd⟩ := splitFold_lists hf
      simp only [Except.ok.injEq] at h
      subst h
      refine ⟨?_, ?_, ?_⟩
      · rw [ht]; simp [splitInit, titleNeEmptyStr]
      · rw [hu]; simp [splitInit]
      · rw [hd]; simp [splitInit]
  · simp at h

theorem split_counts {articles : List ZimItem} {m : Nat} {r : SplitResult}
    (h : split_articles_to_clusters articles m = .ok r) :
    r.titles.length = r.dir_entries.length := by
  obtain ⟨ht, _, hd⟩ := split_lists h
  rw [ht, hd, List.length_map]

theorem split_no_assert {articles : List ZimItem} {m : Nat} :
    split_articles_to_clusters articles m ≠ .error .assertError := by
  unfold split_articles_to_clusters
  split
  · simp
  · next e hf =>
      intro h
      simp only [Except.error.injEq] at h
      subst h
      exact splitFold_no_assert hf

/-! ### The assembly pass in terms of the named values -/

theorem assembleOutput_eq (r : SplitResult) (mimetypes : List (List Nat)) (uuid : List Nat)
    (mpu : Option (List Nat)) (lzmaf : List Nat → List Nat)
    (hlen : r.titles.length = r.dir_entries.length) :
    assembleOutput r mimetypes uuid mpu lzmaf =
      .ok ⟨zimContentOf r mimetypes uuid mpu lzmaf,
           zimHeaderOf r mimetypes uuid mpu lzmaf,
           (mainPageOf r mpu).2⟩ := by
  have hcond : ¬ (ZimHeader.raw_size + (mimelistBytes mimetypes).length +
      12 * r.dir_entries.length ≠
      ZimHeader.raw_size + (mimelistBytes mimetypes).length +
        ((DataGroup.mk (r.dir_entries.map entryBytes) false).table
          (ZimHeader.raw_size + (mimelistBytes mimetypes).length +
            12 * r.dir_entries.length)).length +
        (titlePtrTableBytes r.titles r.dir_entries.length).length) := by
    rw [DataGroup.table_length, titlePtrTableBytes_length, List.length_map, hlen,
      Nat.min_self]
    omega
  simp only [assembleOutput]
  rw [if_neg hcond]
  simp only [zimContentOf, zimHeaderOf, urlPtrPosOf, urlTableOf, titlePtrPosOf,
    titleTableOf, cursorOf, entriesDataOf, clusterPtrPosOf, clusterTableOf,
    clustersDataOf, checksumPosOf, mainPageOf]

theorem zimContent_length (r : SplitResult) (mimetypes : List (List Nat)) (uuid : List Nat)
    (mpu : Option (List Nat)) (lzmaf : List Nat → List Nat) :
    (zimContentOf r mimetypes uuid mpu lzmaf).length =
      checksumPosOf r mimetypes lzmaf := by
  simp only [zimContentOf, List.length_append, headerBytes_length, checksumPosOf,
    clusterPtrPosOf, cursorOf, titlePtrPosOf, urlPtrPosOf, titleTableOf]

theorem zimContent_take_header (r : SplitResult) (mimetypes : List (List Nat))
    (uuid : List Nat) (mpu : Option (List Nat)) (lzmaf : List Nat → List Nat) :
    (zimContentOf r mimetypes uuid mpu lzmaf).take ZimHeader.raw_size =
      headerBytes (zimHeaderOf r mimetypes uuid mpu lzmaf) := by
  rw [zimContentOf]
  rw [show headerBytes (zimHeaderOf r mimetypes uuid mpu lzmaf) ++
      mimelistBytes mimetypes ++ urlTableOf r mimetypes ++ titleTableOf r ++
      entriesDataOf r ++ clusterTableOf r mimetypes lzmaf ++ clustersDataOf r lzmaf =
      headerBytes (zimHeaderOf r mimetypes uuid mpu lzmaf) ++
      (mimelistBytes mimetypes ++ urlTableOf r mimetypes ++ titleTableOf r ++
       entriesDataOf r ++ clusterTableOf r mimetypes lzmaf ++ clustersDataOf r lzmaf)
    from by simp [List.append_assoc]]
  rw [← headerBytes_length (zimHeaderOf r mimetypes uuid mpu lzmaf), List.take_left]

/-! ### Facts about `index?` (Python `list.index` under `try`) -/

theorem index?_spec : ∀ (l : List (List Nat)) (u : List Nat) (i : Nat),
    index? l u = some i →
      i < l.length ∧ l.getD i [] = u ∧ ∀ j, j < i → l.getD j [] ≠ u := by
  intro l
  induction l with
  | nil => intro u i h; simp [index?] at h
  | cons x xs ih =>
      intro u i h
      simp only [index?] at h
      split at h
      · next hx =>
          simp only [Option.some.injEq] at h
          subst h
          exact ⟨by simp, by simpa using hx, by omega⟩
      · next hx =>
          cases hidx : index? xs u with
          | none => rw [hidx] at h; simp at h
          | some j =>
              rw [hidx] at h
              simp only [Option.map_some', Option.some.injEq] at h
              subst h
              obtain ⟨hj1, hj2, hj3⟩ := ih u j hidx
              refine ⟨by simp; omega, by simpa using hj2, ?_⟩
              intro k hk
              match k with
              | 0 => simpa using hx
              | k + 1 =>
                  simp only [List.getD_cons_succ]
                  exact hj3 k (by omega)

theorem index?_eq_none : ∀ (l : List (List Nat)) (u : List Nat),
    index? l u = none ↔ u ∉ l := by
  intro l
  induction l with
  | nil => intro u; simp [index?]
  | cons x xs ih =>
      intro u
      simp only [index?, List.mem_cons]
      split
      · next hx => simp [hx]
      · next hx =>
          rw [Option.map_eq_none', ih]
          constructor
          · intro h hm
            rcases hm with he | hm
            · exact hx he.symm
            · exact h hm
          · intro h hm
            exact h (Or.inr hm)

/-! ### C1: the write cursor matches the precomputed directory-entry offset -/

/-- **C1.**  For every item sequence, after the URL pointer table (8 bytes per
article) and the title pointer table (4 bytes per article) are written
starting at `urlPtrPos`, the write cursor equals the precomputed
`dir_entries_offset = urlPtrPos + 12 * N`, so the `assert` in `write_zim`
always holds and `write_zim` can never raise `AssertionError`. -/
theorem writeZim_assert_always_holds (articles : List ZimItem)
    (mimetypes : List (List Nat)) (uuid : List Nat) (mpu : Option (List Nat))
    (lzmaf : List Nat → List Nat) :
    writeZimContent articles mimetypes uuid mpu lzmaf ≠ .error .assertError ∧
    ∀ r, split_articles_to_clusters articles 1000000 = .ok r →
      urlPtrPosOf mimetypes + (urlTableOf r mimetypes).length + (titleTableOf r).length =
        urlPtrPosOf mimetypes + 12 * r.dir_entries.length := by
  constructor
  · unfold writeZimContent
    split
    · next r hr =>
        rw [assembleOutput_eq _ _ _ _ _ (split_counts hr)]
        simp
    · next e hr =>
        intro hcontra
        simp only [Except.error.injEq] at hcontra
        subst hcontra
        exact split_no_assert hr
  · intro r hr
    rw [urlTableOf, DataGroup.table_length, titleTableOf, titlePtrTableBytes_length,
      List.length_map, split_counts hr, Nat.min_self]
    omega

/-- Witness for C1 at a concrete one-article input. -/
theorem writeZim_assert_always_holds_witness :
    writeZimContent [ZimItem.article 65 [97] [] 0 0 [9]] [[120]]
        (List.replicate 16 0) none id ≠ .error .assertError ∧
    urlPtrPosOf [[120]] +
        (urlTableOf ⟨[⟨[[9]], false⟩], [.article 0 0 65 0 0 0 [97] []], [[]], [[97]]⟩
          [[120]]).length +
        (titleTableOf ⟨[⟨[[9]], false⟩], [.article 0 0 65 0 0 0 [97] []], [[]], [[97]]⟩).length =
      urlPtrPosOf [[120]] +
        12 * (SplitResult.mk [⟨[[9]], false⟩] [.article 0 0 65 0 0 0 [97] []] [[]]
          [[97]]).dir_entries.length :=
  ⟨(writeZim_assert_always_holds [ZimItem.article 65 [97] [] 0 0 [9]] [[120]]
      (List.replicate 16 0) none id).1,
   (writeZim_assert_always_holds [ZimItem.article 65 [97] [] 0 0 [9]] [[120]]
      (List.replicate 16 0) none id).2
     ⟨[⟨[[9]], false⟩], [.article 0 0 65 0 0 0 [97] []], [[]], [[97]]⟩ (by rfl)⟩

/-! ### C3: cluster serialization layout -/

/-- **C3 counterexample.**  The serialized empty uncompressed cluster starts
with the type tag byte `1`, not `0` as the claim states. -/
theorem cluster_tag_counterexample :
    ZimCluster.bytes id ⟨[], false⟩ = [1, 4, 0, 0, 0] ∧
    (ZimCluster.bytes id ⟨[], false⟩).head? ≠ some 0 := by
  constructor
  · rfl
  · intro h
    simp [ZimCluster.bytes, ZimCluster.raw_cluster] at h

/-- **C3 amended.**  An uncompressed cluster with `n` blobs serializes as the
type tag `1` (not `0`), then `n + 1` 4-byte offsets where entry `i` is the
table's own byte size `4 * (n + 1)` plus the cumulative byte length of blobs
`0..i-1`, then the blobs concatenated in append order; a compressed cluster
serializes as the distinguishing tag `4` followed by the compressed
table-plus-blobs region. -/
theorem cluster_serialization_layout (lzmaf : List Nat → List Nat) (c : ZimCluster) :
    (c.compress = false →
      ZimCluster.bytes lzmaf c =
        1 :: (packList u32le ((List.range (c.len + 1)).map
            (fun i => 4 * (c.len + 1) + ((c.blobs.take i).map List.length).sum)) ++
          c.blobs.flatten)) ∧
    (c.compress = true →
      ZimCluster.bytes lzmaf c = 4 :: lzmaf c.raw_cluster) ∧
    (1 : Nat) ≠ 4 := by
  refine ⟨?_, ?_, by omega⟩
  · intro hc
    rw [ZimCluster.bytes, if_neg (by simp [hc])]
    congr 2
    simp only [ZimCluster.raw_cluster, ZimCluster.relative_offset_table, ZimCluster.len,
      cumOffsets_length]
    rw [cumOffsets_eq, List.map_map]
    rfl
  · intro hc
    rw [ZimCluster.bytes, if_pos (by simp [hc])]

/-- Witness for C3 as amended: both branches at concrete one-blob clusters. -/
theorem cluster_serialization_layout_witness :
    (ZimCluster.bytes id ⟨[[7]], false⟩ =
      1 :: (packList u32le ((List.range ((ZimCluster.mk [[7]] false).len + 1)).map
          (fun i => 4 * ((ZimCluster.mk [[7]] false).len + 1) +
            (((ZimCluster.mk [[7]] false).blobs.take i).map List.length).sum)) ++
        (ZimCluster.mk [[7]] false).blobs.flatten)) ∧
    ZimCluster.bytes id ⟨[[7]], true⟩ = 4 :: id (ZimCluster.raw_cluster ⟨[[7]], true⟩) :=
  ⟨(cluster_serialization_layout id ⟨[[7]], false⟩).1 rfl,
   (cluster_serialization_layout id ⟨[[7]], true⟩).2.1 rfl⟩

/-! ### C4: directory-entry layout -/

/-- **C4 counterexample.**  The redirect variant (`ZimLinkTarget.__bytes__`)
packs no target-reference field at all: at a concrete redirect entry the
serialized bytes are the 8-byte shared prefix followed immediately by the two
null-terminated strings (12 bytes in total), and no 4-byte target field can
be inserted to make the claimed layout match. -/
theorem dirent_redirect_field_counterexample :
    entryBytes (.linkTarget 0 0 65 0 [97] [98]) =
      [0, 0, 0, 65, 0, 0, 0, 0, 97, 0, 98, 0] ∧
    ¬ ∃ target : Nat,
        entryBytes (.linkTarget 0 0 65 0 [97] [98]) =
          u16le 0 ++ [0] ++ [65] ++ u32le 0 ++ u32le target ++
            ([97] ++ [0] ++ ([98] ++ [0])) := by
  constructor
  · rfl
  · rintro ⟨t, ht⟩
    have hlen := congrArg List.length ht
    simp [entryBytes, u16le, u32le] at hlen

/-- **C4 amended.**  Every directory entry starts with the shared fixed-width
prefix (mimetype, parameter length, namespace byte, revision) and ends with
the two null-terminated strings (url then title); the content variant inserts
exactly two 4-byte fields (cluster number, blob number) before the strings,
while the redirect variant inserts no extra field (it records no target
reference). -/
theorem dirent_layout (mt pl ns rev cn bn : Nat) (url title : List Nat) :
    entryBytes (.article mt pl ns rev cn bn url title) =
      (u16le mt ++ [pl] ++ [ns] ++ u32le rev) ++ (u32le cn ++ u32le bn) ++
        ((url ++ [0]) ++ (title ++ [0])) ∧
    entryBytes (.linkTarget mt pl ns rev url title) =
      (u16le mt ++ [pl] ++ [ns] ++ u32le rev) ++ ((url ++ [0]) ++ (title ++ [0])) := by
  constructor <;> simp [entryBytes]

/-! ### C8: the offset-indexed collector -/

theorem DataGroup_appendList_open : ∀ (rs : List (List Nat)) (pre : List (List Nat)),
    (DataGroup.mk pre false).appendList rs = some ⟨pre ++ rs, false⟩ := by
  intro rs
  induction rs with
  | nil => intro pre; simp [DataGroup.appendList]
  | cons d ds ih =>
      intro pre
      simp [DataGroup.appendList, DataGroup.append, ih (pre ++ [d]), List.append_assoc]

/-- **C8.**  Appending `N` records to a fresh collector succeeds and stores
them in order; `table(base)` then emits exactly `N` offsets, entry `i` being
`base` plus the total byte length of records `0..i-1` (the final cumulative
offset is never emitted), packed as 8-byte values; `data()` returns the
records concatenated in append order, and afterwards no further append is
permitted. -/
theorem DataGroup_collector_spec (rs : List (List Nat)) (base : Nat) (d : List Nat) :
    DataGroup.new.appendList rs = some ⟨rs, false⟩ ∧
    (DataGroup.mk rs false).tableOffsets base =
      (List.range rs.length).map (fun i => base + ((rs.take i).map List.length).sum) ∧
    ((DataGroup.mk rs false).tableOffsets base).length = rs.length ∧
    (DataGroup.mk rs false).table base =
      packList u64le ((DataGroup.mk rs false).tableOffsets base) ∧
    ((DataGroup.mk rs false).table base).length = 8 * rs.length ∧
    ((DataGroup.mk rs false).data).1 = rs.flatten ∧
    (((DataGroup.mk rs false).data).2).append d = none := by
  refine ⟨?_, DataGroup.tableOffsets_eq _ _, DataGroup.tableOffsets_length _ _, rfl,
    DataGroup.table_length _ _, rfl, by simp [DataGroup.data, DataGroup.append]⟩
  have := DataGroup_appendList_open rs []
  simpa [DataGroup.new] using this

/-! ### C5: the title pointer table is a stable sorted permutation -/

theorem bytesLt_cons_iff {x y : Nat} {xs ys : List Nat} :
    bytesLt (x :: xs) (y :: ys) = true ↔ x < y ∨ (x = y ∧ bytesLt xs ys = true) := by
  simp only [bytesLt]
  by_cases h1 : x < y
  · simp [h1]
  · by_cases h2 : x = y
    · simp [h1, h2]
    · simp [h1, h2]

theorem bytesLt_trichotomy : ∀ (a b : List Nat),
    bytesLt a b = true ∨ a = b ∨ bytesLt b a = true := by
  intro a
  induction a with
  | nil =>
      intro b
      cases b with
      | nil => exact Or.inr (Or.inl rfl)
      | cons y ys => exact Or.inl rfl
  | cons x xs ih =>
      intro b
      cases b with
      | nil => exact Or.inr (Or.inr rfl)
      | cons y ys =>
          rcases Nat.lt_trichotomy x y with h | h | h
          · exact Or.inl (bytesLt_cons_iff.mpr (Or.inl h))
          · subst h
            rcases ih ys with h2 | h2 | h2
            · exact Or.inl (bytesLt_cons_iff.mpr (Or.inr ⟨rfl, h2⟩))
            · exact Or.inr (Or.inl (by rw [h2]))
            · exact Or.inr (Or.inr (bytesLt_cons_iff.mpr (Or.inr ⟨rfl, h2⟩)))
          · exact Or.inr (Or.inr (bytesLt_cons_iff.mpr (Or.inl h)))

theorem bytesLt_trans : ∀ {a b c : List Nat},
    bytesLt a b = true → bytesLt b c = true → bytesLt a c = true := by
  intro a
  induction a with
  | nil =>
      intro b c hab hbc
      cases b with
      | nil => simp [bytesLt] at hab
      | cons y ys =>
          cases c with
          | nil => simp [bytesLt] at hbc
          | cons z zs => rfl
  | cons x xs ih =>
      intro b c hab hbc
      cases b with
      | nil => simp [bytesLt] at hab
      | cons y ys =>
          cases c with
          | nil => simp [bytesLt] at hbc
          | cons z zs =>
              rcases bytesLt_cons_iff.mp hab with h | ⟨he, h⟩ <;>
                rcases bytesLt_cons_iff.mp hbc with g | ⟨ge, g⟩ <;>
                apply bytesLt_cons_iff.mpr
              · exact Or.inl (by omega)
              · exact Or.inl (by omega)
              · exact Or.inl (by omega)
              · exact Or.inr ⟨by omega, ih h g⟩

theorem keyLt_trans : ∀ {p q r : List Nat × Nat}, keyLt p q → keyLt q r → keyLt p r := by
  intro p q r hpq hqr
  rcases hpq with h | ⟨he, hi⟩ <;> rcases hqr with g | ⟨ge, gi⟩
  · exact Or.inl (bytesLt_trans h g)
  · exact Or.inl (ge ▸ h)
  · exact Or.inl (he ▸ g)
  · exact Or.inr ⟨he.trans ge, Nat.lt_trans hi gi⟩

theorem keyLe_total : ∀ (p q : List Nat × Nat), keyLe p q ∨ keyLe q p := by
  intro p q
  rcases bytesLt_trichotomy p.1 q.1 with h | h | h
  · exact Or.inl (Or.inl (Or.inl h))
  · rcases Nat.lt_trichotomy p.2 q.2 with h2 | h2 | h2
    · exact Or.inl (Or.inl (Or.inr ⟨h, h2⟩))
    · exact Or.inl (Or.inr (Prod.ext h h2))
    · exact Or.inr (Or.inl (Or.inr ⟨h.symm, h2⟩))
  · exact Or.inr (Or.inl (Or.inl h))

instance : IsTotal (List Nat × Nat) keyLe := ⟨keyLe_total⟩

instance : IsTrans (List Nat × Nat) keyLe :=
  ⟨by
    intro p q r hpq hqr
    rcases hpq with hpq | hpq
    · rcases hqr with hqr | hqr
      · exact Or.inl (keyLt_trans hpq hqr)
      · exact Or.inl (hqr ▸ hpq)
    · exact hpq ▸ hqr⟩

theorem mem_zip_range' : ∀ (l : List (List Nat)) (k : Nat) (p : List Nat × Nat),
    p ∈ l.zip (List.range' k l.length) →
      k ≤ p.2 ∧ p.2 - k < l.length ∧ l.getD (p.2 - k) [] = p.1 := by
  intro l
  induction l with
  | nil => intro k p h; simp at h
  | cons x xs ih =>
      intro k p h
      rw [List.length_cons, List.range'_succ, List.zip_cons_cons, List.mem_cons] at h
      rcases h with h | h
      · subst h
        refine ⟨Nat.le_refl _, by simp, by simp⟩
      · obtain ⟨h1, h2, h3⟩ := ih (k + 1) p h
        have hrw : p.2 - k = (p.2 - (k + 1)) + 1 := by omega
        refine ⟨by omega, ?_, ?_⟩
        · rw [List.length_cons]
          omega
        · rw [hrw, List.getD_cons_succ]
          exact h3

theorem mem_zip_range (l : List (List Nat)) (p : List Nat × Nat)
    (h : p ∈ l.zip (List.range l.length)) : p.2 < l.length ∧ l.getD p.2 [] = p.1 := by
  rw [List.range_eq_range'] at h
  have := mem_zip_range' l 0 p h
  exact ⟨by omega, by simpa using this.2.2⟩

/-- **C5.**  For every title list given in URL (original) order, the title
pointer table is a permutation of `[0, N)`, and reading the titles through it
yields strictly increasing `(title, original index)` keys: consecutive (and
hence all) picked titles are lexicographically non-decreasing, and two equal
titles appear with their original indices in increasing order (the sort is
stable). -/
theorem title_table_stable_sorted_perm (titles : List (List Nat)) :
    (ZimTitlePtrTable titles titles.length).Perm (List.range titles.length) ∧
    List.Pairwise
      (fun i j => bytesLt (titles.getD i []) (titles.getD j []) = true ∨
        (titles.getD i [] = titles.getD j [] ∧ i < j))
      (ZimTitlePtrTable titles titles.length) := by
  have hperm : (List.insertionSort keyLe (titles.zip (List.range titles.length))).Perm
      (titles.zip (List.range titles.length)) := List.perm_insertionSort keyLe _
  have hmapsnd : (titles.zip (List.range titles.length)).map Prod.snd =
      List.range titles.length :=
    List.map_snd_zip _ _ (by simp)
  have hperm2 : ((List.insertionSort keyLe
      (titles.zip (List.range titles.length))).map Prod.snd).Perm
      (List.range titles.length) := by
    have h := hperm.map Prod.snd
    rw [hmapsnd] at h
    exact h
  constructor
  · exact hperm2
  · have hnodup : (List.insertionSort keyLe (titles.zip (List.range titles.length))).Nodup := by
      have h1 : ((List.insertionSort keyLe
          (titles.zip (List.range titles.length))).map Prod.snd).Nodup :=
        hperm2.symm.nodup (List.nodup_range _)
      exact h1.of_map
    have hsorted : List.Pairwise keyLe
        (List.insertionSort keyLe (titles.zip (List.range titles.length))) :=
      List.sorted_insertionSort keyLe _
    have hlt : List.Pairwise keyLt
        (List.insertionSort keyLe (titles.zip (List.range titles.length))) :=
      (hsorted.and hnodup).imp (fun {a b} h => h.1.resolve_right h.2)
    rw [show ZimTitlePtrTable titles titles.length =
      (List.insertionSort keyLe (titles.zip (List.range titles.length))).map Prod.snd
      from rfl, List.pairwise_map]
    refine hlt.imp_of_mem ?_
    intro p q hp hq hpq
    have hp' := mem_zip_range titles p (hperm.subset hp)
    have hq' := mem_zip_range titles q (hperm.subset hq)
    rcases hpq with h | ⟨he, hi⟩
    · exact Or.inl (by rw [hp'.2, hq'.2]; exact h)
    · exact Or.inr (by rw [hp'.2, hq'.2]; exact ⟨he, hi⟩)

/-! ### C2: the splitting policy, related to the specification's wording -/

/-- The simulation relation between the writer's loop state and the
specification-side state: the closed clusters and the current cluster hold the
same blobs, and—the key invariant—when the current cluster is non-empty its
(unique) namespace is exactly `current_ns`, the namespace of the previously
processed item. -/
def SplitRel (s : SplitState) (t : SpecState) : Prop :=
  s.cluster_grp.map ZimCluster.blobs = t.closed.map (List.map Prod.snd) ∧
  s.current_cluster.blobs = t.current.map Prod.snd ∧
  (t.current ≠ [] → specClusterNs t.current = some s.current_ns)

theorem rawSize_eq_specSize {c : ZimCluster} {t : List (Nat × List Nat)}
    (h : c.blobs = t.map Prod.snd) : c.raw_size = specSize t := by
  simp only [ZimCluster.raw_size, specSize, h, List.map_map]
  rfl

theorem splitStep_refines {m : Nat} {s : SplitState} {t : SpecState} (hrel : SplitRel s t)
    (ns : Nat) (url title : List Nat) (mt rev : Nat) (blob : List Nat) :
    ∃ s', splitStep m s (.article ns url title mt rev blob) = .ok s' ∧
      SplitRel s' (specStep m t (.article ns url title mt rev blob)) := by
  obtain ⟨h1, h2, h3⟩ := hrel
  have hsize : s.current_cluster.raw_size = specSize t.current := rawSize_eq_specSize h2
  have hlen : s.current_cluster.len = t.current.length := by simp [ZimCluster.len, h2]
  have hcond : (s.current_cluster.raw_size > m ∨
      (ns ≠ s.current_ns ∧ 0 < s.current_cluster.len)) ↔
      (specSize t.current > m ∨
        (t.current ≠ [] ∧ specClusterNs t.current ≠ some ns)) := by
    rw [hsize, hlen]
    constructor
    · rintro (h | ⟨hne, hpos⟩)
      · exact Or.inl h
      · have hne' : t.current ≠ [] := by
          intro hnil
          rw [hnil] at hpos
          simp at hpos
        refine Or.inr ⟨hne', ?_⟩
        rw [h3 hne']
        intro hcon
        simp only [Option.some.injEq] at hcon
        exact hne hcon.symm
    · rintro (h | ⟨hne', hns⟩)
      · exact Or.inl h
      · refine Or.inr ⟨?_, List.length_pos.mpr hne'⟩
        intro he
        apply hns
        rw [h3 hne', he]
  by_cases hc : s.current_cluster.raw_size > m ∨ (ns ≠ s.current_ns ∧ 0 < s.current_cluster.len)
  · have hc2 := hcond.mp hc
    simp only [splitStep, ZimItem.ns]
    rw [if_pos hc]
    refine ⟨_, rfl, ?_⟩
    simp only [specStep, ZimItem.ns]
    rw [if_pos hc2]
    refine ⟨?_, ?_, ?_⟩
    · simp [h1, h2]
    · simp [ZimCluster.new, ZimCluster.append]
    · intro _
      simp [specClusterNs]
  · have hc2 : ¬ (specSize t.current > m ∨
        (t.current ≠ [] ∧ specClusterNs t.current ≠ some ns)) :=
      fun hx => hc (hcond.mpr hx)
    simp only [splitStep, ZimItem.ns]
    rw [if_neg hc]
    refine ⟨_, rfl, ?_⟩
    simp only [specStep, ZimItem.ns]
    rw [if_neg hc2]
    refine ⟨h1, ?_, ?_⟩
    · simp [ZimCluster.append, h2]
    · intro _
      cases htc : t.current with
      | nil => simp [specClusterNs]
      | cons p ps =>
          have hne' : t.current ≠ [] := by rw [htc]; simp
          have hns : specClusterNs t.current = some ns := by
            by_contra hno
            exact hc2 (Or.inr ⟨hne', hno⟩)
          rw [htc] at hns
          simpa [specClusterNs, List.cons_append] using hns

theorem splitFold_refines {m : Nat} :
    ∀ {articles : List ZimItem}, (∀ a ∈ articles, a.isArticle = true) →
      ∀ {s : SplitState} {t : SpecState}, SplitRel s t →
      ∃ s', splitFold m s articles = .ok s' ∧
        SplitRel s' (articles.foldl (specStep m) t) := by
  intro articles
  induction articles with
  | nil =>
      intro _ s t hrel
      exact ⟨s, rfl, hrel⟩
  | cons a as ih =>
      intro hb s t hrel
      have ha : a.isArticle = true := hb a (by simp)
      cases a with
      | linkTarget ns url title mt rev => simp [ZimItem.isArticle] at ha
      | article ns url title mt rev blob =>
          obtain ⟨s1, hstep, hrel1⟩ := splitStep_refines hrel ns url title mt rev blob
          obtain ⟨s', hfold, hrel'⟩ := ih (fun x hx => hb x (by simp [hx])) hrel1
          refine ⟨s', ?_, ?_⟩
          · simp only [splitFold]
            rw [hstep]
            exact hfold
          · rw [List.foldl_cons]
            exact hrel'

/-- **C2 counterexample.**  The claim quantifies over every item sequence, but
an item without a payload (a bare `ZimLinkTarget`) makes
`split_articles_to_clusters` raise `AttributeError` (`article.has_blob` is
read while the class defines `hasblob`), so for this input no final cluster is
emitted at end of input at all. -/
theorem cluster_splitting_counterexample :
    split_articles_to_clusters [ZimItem.linkTarget 65 [97] [] 0 0] 1000000 =
      .error .attrError := rfl

/-- **C2 amended.**  For every sequence of payload-carrying items: evaluated
per incoming item, the current cluster is closed and a new one opened exactly
when (a) its accumulated uncompressed size exceeds the threshold or (b) the
item's namespace differs from the current cluster's namespace and the cluster
holds at least one blob — stated as: the writer's clustering refines the
specification-side model `specSplit`, whose step is literally that rule — and
the final cluster is always emitted even if empty; an empty item sequence
yields zero directory entries, one (empty) cluster, articleCount 0,
clusterCount 1, and empty URL/title pointer tables.  (Items without payloads
instead abort the pass with `AttributeError`.) -/
theorem cluster_splitting_policy (articles : List ZimItem) (max_cluster_size : Nat)
    (hb : ∀ a ∈ articles, a.isArticle = true) :
    (∃ r, split_articles_to_clusters articles max_cluster_size = .ok r ∧
      r.cluster_grp.map ZimCluster.blobs =
        (specSplit articles max_cluster_size).map (List.map Prod.snd) ∧
      r.cluster_grp ≠ []) ∧
    split_articles_to_clusters [] max_cluster_size =
      .ok ⟨[ZimCluster.new], [], [], []⟩ ∧
    (∀ mimetypes uuid lzmaf, ∃ out,
      writeZimContent [] mimetypes uuid none lzmaf = .ok out ∧
      out.header.articleCount = 0 ∧ out.header.clusterCount = 1 ∧
      (∀ b, (DataGroup.mk (([] : List DirEntry).map entryBytes) false).table b = []) ∧
      titlePtrTableBytes [] 0 = []) := by
  refine ⟨?_, rfl, ?_⟩
  · obtain ⟨s', hfold, hrel'⟩ :=
      splitFold_refines hb (s := splitInit) (t := ⟨[], []⟩) ⟨rfl, rfl, by intro h; simp at h⟩
    refine ⟨⟨s'.cluster_grp ++ [s'.current_cluster], s'.dir_entries, s'.titles, s'.urls⟩,
      ?_, ?_, by simp⟩
    · unfold split_articles_to_clusters
      rw [hfold]
    · obtain ⟨g1, g2, _⟩ := hrel'
      unfold specSplit
      simp only [List.map_append, List.map_cons, List.map_nil]
      rw [g1, g2]
  · intro mimetypes uuid lzmaf
    refine ⟨⟨zimContentOf ⟨[ZimCluster.new], [], [], []⟩ mimetypes uuid none lzmaf,
      zimHeaderOf ⟨[ZimCluster.new], [], [], []⟩ mimetypes uuid none lzmaf,
      (mainPageOf ⟨[ZimCluster.new], [], [], []⟩ none).2⟩, ?_, rfl, rfl, fun b => rfl, rfl⟩
    exact assembleOutput_eq ⟨[ZimCluster.new], [], [], []⟩ mimetypes uuid none lzmaf rfl

/-- Witness for C2 as amended, at a concrete one-article input. -/
theorem cluster_splitting_policy_witness :
    (∃ r, split_articles_to_clusters [ZimItem.article 65 [97] [] 0 0 [1]] 1000000 = .ok r ∧
      r.cluster_grp.map ZimCluster.blobs =
        (specSplit [ZimItem.article 65 [97] [] 0 0 [1]] 1000000).map (List.map Prod.snd) ∧
      r.cluster_grp ≠ []) ∧
    split_articles_to_clusters [] 1000000 = .ok ⟨[ZimCluster.new], [], [], []⟩ ∧
    (∀ mimetypes uuid lzmaf, ∃ out,
      writeZimContent [] mimetypes uuid none lzmaf = .ok out ∧
      out.header.articleCount = 0 ∧ out.header.clusterCount = 1 ∧
      (∀ b, (DataGroup.mk (([] : List DirEntry).map entryBytes) false).table b = []) ∧
      titlePtrTableBytes [] 0 = []) :=
  cluster_splitting_policy [ZimItem.article 65 [97] [] 0 0 [1]] 1000000 (by decide)

/-! ### C10: recorded (cluster, blob) pairs stay correct to the end of the pass -/

/-- The loop invariant for C10: one directory entry per processed item, and
every content entry's recorded `(cluster_number, blob_number)` locates its
item's blob in the cluster sequence as it will be emitted
(closed clusters followed by the current one). -/
def EntriesOk (processed : List ZimItem) (s : SplitState) : Prop :=
  s.dir_entries.length = processed.length ∧
  ∀ (k ns : Nat) (url title : List Nat) (mt rev : Nat) (blob : List Nat),
    processed[k]? = some (.article ns url title mt rev blob) →
    ∃ c b, s.dir_entries[k]? = some (.article mt 0 ns rev c b url title) ∧
      ∃ cl, (s.cluster_grp ++ [s.current_cluster])[c]? = some cl ∧
        cl.blobs[b]? = some blob

theorem splitStep_entriesOk {m : Nat} {s : SplitState} {a : ZimItem} {s' : SplitState}
    {processed : List ZimItem} (h : splitStep m s a = .ok s')
    (hi : EntriesOk processed s) : EntriesOk (processed ++ [a]) s' := by
  obtain ⟨hlen, hinv⟩ := hi
  cases a with
  | linkTarget ns url title mt rev => simp [splitStep] at h
  | article ns url title mt rev blob =>
      simp only [splitStep, ZimItem.ns] at h
      by_cases hc : s.current_cluster.raw_size > m ∨
          (ns ≠ s.current_ns ∧ 0 < s.current_cluster.len)
      · rw [if_pos hc] at h
        simp only [Except.ok.injEq] at h
        subst h
        refine ⟨by simp [hlen], ?_⟩
        intro k ns' url' title' mt' rev' blob' hk
        rcases Nat.lt_trichotomy k processed.length with hk' | hk' | hk'
        · rw [List.getElem?_append_left hk'] at hk
          obtain ⟨c, b, hc1, cl, hc2, hc3⟩ := hinv k _ _ _ _ _ _ hk
          obtain ⟨hclt, _⟩ := List.getElem?_eq_some.mp hc2
          refine ⟨c, b, ?_, cl, ?_, hc3⟩
          · rw [List.getElem?_append_left (by omega)]
            exact hc1
          · rw [List.getElem?_append_left hclt]
            exact hc2
        · subst hk'
          rw [List.getElem?_concat_length] at hk
          simp only [Option.some.injEq, ZimItem.article.injEq] at hk
          obtain ⟨hns, hurl, htitle, hmt, hrev, hblob⟩ := hk
          subst hns; subst hurl; subst htitle; subst hmt; subst hrev; subst hblob
          refine ⟨(s.cluster_grp ++ [s.current_cluster]).length, 0, ?_, ?_⟩
          · rw [← hlen, List.getElem?_concat_length]
            simp [ZimCluster.new, ZimCluster.append, ZimCluster.len]
          · refine ⟨ZimCluster.new.append blob, List.getElem?_concat_length _ _, ?_⟩
            simp [ZimCluster.new, ZimCluster.append]
        · rw [List.getElem?_eq_none (by simp; omega)] at hk
          exact absurd hk (by simp)
      · rw [if_neg hc] at h
        simp only [Except.ok.injEq] at h
        subst h
        refine ⟨by simp [hlen], ?_⟩
        intro k ns' url' title' mt' rev' blob' hk
        rcases Nat.lt_trichotomy k processed.length with hk' | hk' | hk'
        · rw [List.getElem?_append_left hk'] at hk
          obtain ⟨c, b, hc1, cl, hc2, hc3⟩ := hinv k _ _ _ _ _ _ hk
          obtain ⟨hclt, _⟩ := List.getElem?_eq_some.mp hc2
          rcases Nat.lt_trichotomy c s.cluster_grp.length with hcg | hcg | hcg
          · refine ⟨c, b, ?_, cl, ?_, hc3⟩
            · rw [List.getElem?_append_left (by omega)]
              exact hc1
            · rw [List.getElem?_append_left hcg] at hc2 ⊢
              exact hc2
          · subst hcg
            rw [List.getElem?_concat_length] at hc2
            simp only [Option.some.injEq] at hc2
            subst hc2
            obtain ⟨hblt, _⟩ := List.getElem?_eq_some.mp hc3
            refine ⟨s.cluster_grp.length, b, ?_, s.current_cluster.append blob, ?_, ?_⟩
            · rw [List.getElem?_append_left (by omega)]
              exact hc1
            · exact List.getElem?_concat_length _ _
            · simp only [ZimCluster.append]
              rw [List.getElem?_append_left hblt]
              exact hc3
          · exfalso
            rw [List.length_append, List.length_cons, List.length_nil] at hclt
            omega
        · subst hk'
          rw [List.getElem?_concat_length] at hk
          simp only [Option.some.injEq, ZimItem.article.injEq] at hk
          obtain ⟨hns, hurl, htitle, hmt, hrev, hblob⟩ := hk
          subst hns; subst hurl; subst htitle; subst hmt; subst hrev; subst hblob
          refine ⟨s.cluster_grp.length, s.current_cluster.blobs.length, ?_, ?_⟩
          · rw [← hlen, List.getElem?_concat_length]
            simp [ZimCluster.append, ZimCluster.len]
          · refine ⟨s.current_cluster.append blob, List.getElem?_concat_length _ _, ?_⟩
            simp only [ZimCluster.append]
            exact List.getElem?_concat_length _ _
        · rw [List.getElem?_eq_none (by simp; omega)] at hk
          exact absurd hk (by simp)

theorem splitFold_entriesOk {m : Nat} :
    ∀ {articles : List ZimItem} {s s' : SplitState} {processed : List ZimItem},
      splitFold m s articles = .ok s' → EntriesOk processed s →
      EntriesOk (processed ++ articles) s' := by
  intro articles
  induction articles with
  | nil =>
      intro s s' processed h hi
      simp only [splitFold, Except.ok.injEq] at h
      subst h
      simpa using hi
  | cons a as ih =>
      intro s s' processed h hi
      simp only [splitFold] at h
      split at h
      · next s1 hstep =>
          have := ih h (splitStep_entriesOk hstep hi)
          simpa [List.append_assoc] using this
      · simp at h

theorem split_entries_locate {articles : List ZimItem} {m : Nat}
    {r : SplitResult} (h : split_articles_to_clusters articles m = .ok r) :
    ∀ (k ns : Nat) (url title : List Nat) (mt rev : Nat) (blob : List Nat),
      articles[k]? = some (.article ns url title mt rev blob) →
      ∃ c b, r.dir_entries[k]? = some (.article mt 0 ns rev c b url title) ∧
        ∃ cl, r.cluster_grp[c]? = some cl ∧ cl.blobs[b]? = some blob := by
  unfold split_articles_to_clusters at h
  split at h
  · next s hf =>
      simp only [Except.ok.injEq] at h
      subst h
      have hinit : EntriesOk [] splitInit := by
        refine ⟨rfl, ?_⟩
        intro k ns url title mt rev blob hk
        simp at hk
      have := splitFold_entriesOk hf hinit
      simpa using this.2
  · simp at h

/-- **C10.**  Whenever the pass completes, every content item's directory
entry records a `(cluster_number, blob_number)` pair that is still correct at
the end of the pass: indexing the emitted cluster sequence with the recorded
cluster number and that cluster's blob list with the recorded blob number
yields exactly the item's blob. -/
theorem recorded_cluster_blob_correct {articles : List ZimItem} {m : Nat}
    {r : SplitResult} (h : split_articles_to_clusters articles m = .ok r) :
    ∀ (k ns : Nat) (url title : List Nat) (mt rev : Nat) (blob : List Nat),
      articles[k]? = some (.article ns url title mt rev blob) →
      ∃ c b, r.dir_entries[k]? = some (.article mt 0 ns rev c b url title) ∧
        ∃ cl, r.cluster_grp[c]? = some cl ∧ cl.blobs[b]? = some blob :=
  split_entries_locate h

/-- Witness for C10 at a concrete two-article input crossing a namespace
boundary. -/
theorem recorded_cluster_blob_correct_witness :
    ∃ c b, (SplitResult.dir_entries
        ⟨[⟨[[1, 2]], false⟩, ⟨[[3]], false⟩],
         [.article 0 0 65 0 0 0 [97] [], .article 0 0 66 0 1 0 [98] []],
         [[], []], [[97], [98]]⟩)[1]? = some (.article 0 0 66 0 c b [98] []) ∧
      ∃ cl, (SplitResult.cluster_grp
          ⟨[⟨[[1, 2]], false⟩, ⟨[[3]], false⟩],
           [.article 0 0 65 0 0 0 [97] [], .article 0 0 66 0 1 0 [98] []],
           [[], []], [[97], [98]]⟩)[c]? = some cl ∧ cl.blobs[b]? = some [3] :=
  @recorded_cluster_blob_correct
    [ZimItem.article 65 [97] [] 0 0 [1, 2], ZimItem.article 66 [98] [] 0 0 [3]]
    1000000
    ⟨[⟨[[1, 2]], false⟩, ⟨[[3]], false⟩],
     [.article 0 0 65 0 0 0 [97] [], .article 0 0 66 0 1 0 [98] []],
     [[], []], [[97], [98]]⟩
    (by rfl) 1 66 [98] [] 0 0 [3] (by rfl)

/-! ### C6: the empty-title URL substitution never happens -/

/-- **C6 counterexample.**  For a concrete item with an empty title and url
`"a"`, the collected sort key is the empty title, not the url, and the
serialized entry stores the empty title (its last two bytes are the url
terminator followed by the empty title's terminator), not the url. -/
theorem empty_title_substitution_counterexample :
    (split_articles_to_clusters [ZimItem.article 65 [97] [] 0 0 [5]] 1000000).toOption.map
        SplitResult.titles = some [[]] ∧
    some [([] : List Nat)] ≠ some [[97]] ∧
    (split_articles_to_clusters [ZimItem.article 65 [97] [] 0 0 [5]] 1000000).toOption.map
        SplitResult.dir_entries = some [.article 0 0 65 0 0 0 [97] []] ∧
    entryBytes (.article 0 0 65 0 0 0 [97] []) =
      [0, 0, 0, 65, 0, 0, 0, 0, 0, 0, 0, 0, 0, 0, 0, 0, 97, 0, 0] ∧
    entryBytes (.article 0 0 65 0 0 0 [97] []) ≠
      entryBytes (.article 0 0 65 0 0 0 [97] [97]) := by
  refine ⟨rfl, by decide, rfl, rfl, by decide⟩

/-- **C6 amended.**  For every item whose title is the empty string, the empty
title itself — never the URL — is used as the title sort key (the
substitution branch compares the `bytes` title against the `str` `""`, which
is never equal in Python, so it is dead code), and the item's serialized
directory entry likewise stores the item's own empty title. -/
theorem empty_title_not_substituted {articles : List ZimItem} {m : Nat} {r : SplitResult}
    (h : split_articles_to_clusters articles m = .ok r) :
    r.titles = articles.map ZimItem.title ∧
    ∀ (k ns : Nat) (url : List Nat) (mt rev : Nat) (blob : List Nat),
      articles[k]? = some (.article ns url [] mt rev blob) →
      r.titles[k]? = some [] ∧
      ∃ c b, r.dir_entries[k]? = some (.article mt 0 ns rev c b url []) ∧
        entryBytes (.article mt 0 ns rev c b url []) =
          u16le mt ++ [0] ++ [ns] ++ u32le rev ++ u32le c ++ u32le b ++
            (url ++ [0]) ++ (([] : List Nat) ++ [0]) := by
  obtain ⟨ht, _, _⟩ := split_lists h
  refine ⟨ht, ?_⟩
  intro k ns url mt rev blob hk
  constructor
  · rw [ht, List.getElem?_map, hk]
    rfl
  · obtain ⟨c, b, hc1, _⟩ := split_entries_locate h k ns url [] mt rev blob hk
    exact ⟨c, b, hc1, by simp [entryBytes]⟩

/-- Witness for C6 as amended at a concrete empty-title item. -/
theorem empty_title_not_substituted_witness :
    SplitResult.titles ⟨[⟨[[5]], false⟩], [.article 0 0 65 0 0 0 [97] []], [[]], [[97]]⟩ =
      [ZimItem.article 65 [97] [] 0 0 [5]].map ZimItem.title ∧
    ((SplitResult.titles
        ⟨[⟨[[5]], false⟩], [.article 0 0 65 0 0 0 [97] []], [[]], [[97]]⟩)[0]? =
      some [] ∧
    ∃ c b, (SplitResult.dir_entries
        ⟨[⟨[[5]], false⟩], [.article 0 0 65 0 0 0 [97] []], [[]], [[97]]⟩)[0]? =
          some (.article 0 0 65 0 c b [97] []) ∧
      entryBytes (.article 0 0 65 0 c b [97] []) =
        u16le 0 ++ [0] ++ [65] ++ u32le 0 ++ u32le c ++ u32le b ++
          ([97] ++ [0]) ++ (([] : List Nat) ++ [0])) :=
  ⟨(@empty_title_not_substituted [ZimItem.article 65 [97] [] 0 0 [5]] 1000000
      ⟨[⟨[[5]], false⟩], [.article 0 0 65 0 0 0 [97] []], [[]], [[97]]⟩ rfl).1,
   (@empty_title_not_substituted [ZimItem.article 65 [97] [] 0 0 [5]] 1000000
      ⟨[⟨[[5]], false⟩], [.article 0 0 65 0 0 0 [97] []], [[]], [[97]]⟩ rfl).2
     0 65 [97] 0 0 [5] rfl⟩

/-! ### C7: main-page resolution -/

/-- **C7.**  When a main-page URL is supplied and occurs in the assembled URL
list, `header.mainPage` is the index of its first exact match; when it is
absent, the warning is emitted, `header.mainPage` keeps the sentinel
`0xffffffff`, and the write still completes (returns a result). -/
theorem main_page_resolution {articles : List ZimItem} (mimetypes : List (List Nat))
    (uuid : List Nat) (u : List Nat) (lzmaf : List Nat → List Nat) {r : SplitResult}
    (h : split_articles_to_clusters articles 1000000 = .ok r) :
    ∃ out, writeZimContent articles mimetypes uuid (some u) lzmaf = .ok out ∧
      (u ∈ r.urls →
        out.warned = false ∧
        out.header.mainPage < r.urls.length ∧
        r.urls.getD out.header.mainPage [] = u ∧
        ∀ j, j < out.header.mainPage → r.urls.getD j [] ≠ u) ∧
      (u ∉ r.urls →
        out.warned = true ∧ out.header.mainPage = 0xffffffff) := by
  have heq := assembleOutput_eq r mimetypes uuid (some u) lzmaf (split_counts h)
  refine ⟨⟨zimContentOf r mimetypes uuid (some u) lzmaf,
    zimHeaderOf r mimetypes uuid (some u) lzmaf, (mainPageOf r (some u)).2⟩, ?_, ?_, ?_⟩
  · unfold writeZimContent
    rw [h]
    exact heq
  · intro hmem
    cases hidx : index? r.urls u with
    | none => exact absurd hmem ((index?_eq_none r.urls u).mp hidx)
    | some i =>
        obtain ⟨h1, h2, h3⟩ := index?_spec r.urls u i hidx
        refine ⟨by simp [mainPageOf, hidx], ?_, ?_, ?_⟩
        · show (zimHeaderOf r mimetypes uuid (some u) lzmaf).mainPage < r.urls.length
          simp [zimHeaderOf, mainPageOf, hidx, h1]
        · show r.urls.getD (zimHeaderOf r mimetypes uuid (some u) lzmaf).mainPage [] = u
          simp only [zimHeaderOf, mainPageOf, hidx]
          exact h2
        · intro j hj
          simp only [zimHeaderOf, mainPageOf, hidx] at hj
          exact h3 j hj
  · intro hmem
    have hidx : index? r.urls u = none := (index?_eq_none r.urls u).mpr hmem
    exact ⟨by simp [mainPageOf, hidx], by simp [zimHeaderOf, mainPageOf, hidx]⟩

/-- Witness for C7 at a concrete input whose main-page URL is absent. -/
theorem main_page_resolution_witness :
    ∃ out, writeZimContent [ZimItem.article 65 [97] [] 0 0 [5]] [[1]]
        (List.replicate 16 0) (some [98]) id = .ok out ∧
      ([98] ∈ SplitResult.urls
          ⟨[⟨[[5]], false⟩], [.article 0 0 65 0 0 0 [97] []], [[]], [[97]]⟩ →
        out.warned = false ∧
        out.header.mainPage <
          (SplitResult.urls
            ⟨[⟨[[5]], false⟩], [.article 0 0 65 0 0 0 [97] []], [[]], [[97]]⟩).length ∧
        (SplitResult.urls
          ⟨[⟨[[5]], false⟩], [.article 0 0 65 0 0 0 [97] []], [[]], [[97]]⟩).getD
            out.header.mainPage [] = [98] ∧
        ∀ j, j < out.header.mainPage →
          (SplitResult.urls
            ⟨[⟨[[5]], false⟩], [.article 0 0 65 0 0 0 [97] []], [[]], [[97]]⟩).getD
              j [] ≠ [98]) ∧
      ([98] ∉ SplitResult.urls
          ⟨[⟨[[5]], false⟩], [.article 0 0 65 0 0 0 [97] []], [[]], [[97]]⟩ →
        out.warned = true ∧ out.header.mainPage = 0xffffffff) :=
  @main_page_resolution [ZimItem.article 65 [97] [] 0 0 [5]] [[1]]
    (List.replicate 16 0) [98] id
    ⟨[⟨[[5]], false⟩], [.article 0 0 65 0 0 0 [97] []], [[]], [[97]]⟩ rfl

/-! ### C9: the integrity trailer -/

/-- **C9.**  The finished archive is the first-pass content (with the
back-patched header at its start) followed by the 16-byte digest of exactly
those bytes: `checksumPos` is the offset where the digest begins, the digest
input is everything before it (header included), and the digest itself is
excluded from its own input. -/
theorem checksum_trailer {articles : List ZimItem} {mimetypes : List (List Nat)}
    {uuid : List Nat} {mpu : Option (List Nat)} {lzmaf md5f : List Nat → List Nat}
    {out : WriteOutput}
    (h : writeZimContent articles mimetypes uuid mpu lzmaf = .ok out)
    (hm : (md5f out.content).length = 16) :
    write_zim articles mimetypes uuid mpu lzmaf md5f =
      .ok (out.content ++ md5f out.content) ∧
    out.header.checksumPos = out.content.length ∧
    (out.content ++ md5f out.content).take out.header.checksumPos = out.content ∧
    (out.content ++ md5f out.content).drop out.header.checksumPos = md5f out.content ∧
    (out.content ++ md5f out.content).length = out.header.checksumPos + 16 ∧
    out.content.take ZimHeader.raw_size = headerBytes out.header := by
  have hshape : out.header.checksumPos = out.content.length ∧
      out.content.take ZimHeader.raw_size = headerBytes out.header := by
    unfold writeZimContent at h
    split at h
    · next r hr =>
        rw [assembleOutput_eq r mimetypes uuid mpu lzmaf (split_counts hr)] at h
        simp only [Except.ok.injEq] at h
        subst h
        refine ⟨?_, zimContent_take_header r mimetypes uuid mpu lzmaf⟩
        rw [zimContent_length]
        rfl
    · simp at h
  refine ⟨?_, hshape.1, ?_, ?_, ?_, hshape.2⟩
  · unfold write_zim
    rw [h]
  · rw [hshape.1]
    exact List.take_left _ _
  · rw [hshape.1]
    exact List.drop_left _ _
  · rw [List.length_append, hshape.1, hm]

/-- Witness for C9 at the empty input with a stand-in 16-byte digest. -/
theorem checksum_trailer_witness :
    write_zim [] [[1]] (List.replicate 16 0) none id (fun _ => List.replicate 16 0) =
      .ok (zimContentOf ⟨[ZimCluster.new], [], [], []⟩ [[1]] (List.replicate 16 0) none id ++
        List.replicate 16 0) ∧
    (zimHeaderOf ⟨[ZimCluster.new], [], [], []⟩ [[1]]
        (List.replicate 16 0) none id).checksumPos =
      (zimContentOf ⟨[ZimCluster.new], [], [], []⟩ [[1]]
        (List.replicate 16 0) none id).length ∧
    (zimContentOf ⟨[ZimCluster.new], [], [], []⟩ [[1]] (List.replicate 16 0) none id ++
        List.replicate 16 0).take
      (zimHeaderOf ⟨[ZimCluster.new], [], [], []⟩ [[1]]
        (List.replicate 16 0) none id).checksumPos =
      zimContentOf ⟨[ZimCluster.new], [], [], []⟩ [[1]] (List.replicate 16 0) none id ∧
    (zimContentOf ⟨[ZimCluster.new], [], [], []⟩ [[1]] (List.replicate 16 0) none id ++
        List.replicate 16 0).drop
      (zimHeaderOf ⟨[ZimCluster.new], [], [], []⟩ [[1]]
        (List.replicate 16 0) none id).checksumPos =
      List.replicate 16 0 ∧
    (zimContentOf ⟨[ZimCluster.new], [], [], []⟩ [[1]] (List.replicate 16 0) none id ++
        List.replicate 16 0).length =
      (zimHeaderOf ⟨[ZimCluster.new], [], [], []⟩ [[1]]
        (List.replicate 16 0) none id).checksumPos + 16 ∧
    (zimContentOf ⟨[ZimCluster.new], [], [], []⟩ [[1]]
        (List.replicate 16 0) none id).take ZimHeader.raw_size =
      headerBytes (zimHeaderOf ⟨[ZimCluster.new], [], [], []⟩ [[1]]
        (List.replicate 16 0) none id) :=
  @checksum_trailer [] [[1]] (List.replicate 16 0) none id
    (fun _ => List.replicate 16 0)
    ⟨zimContentOf ⟨[ZimCluster.new], [], [], []⟩ [[1]] (List.replicate 16 0) none id,
      zimHeaderOf ⟨[ZimCluster.new], [], [], []⟩ [[1]] (List.replicate 16 0) none id,
      (mainPageOf ⟨[ZimCluster.new], [], [], []⟩ none).2⟩
    (assembleOutput_eq ⟨[ZimCluster.new], [], [], []⟩ [[1]] (List.replicate 16 0) none id rfl)
    rfl

end PyZim
